import Mathlib

/-!
Shallow embedding of the Method-of-Joints truss solver
(`Method_of_Joints.py`, `Structure_Operations.py`).

Machine floats are modelled by exact rationals `ℚ`; the geometry module
(`Geometry_Operations.py`, an external collaborator excluded by the spec)
is abstracted as a structure of functions supplied to every operation.
Python's in-place mutation of shared bar objects is modelled by explicit
state passing (`State := ℕ → BarState`, bars named by numeric ids), and
`sys.exit` by an `Except` error.  An `Event` log records, as a ghost
observation, every load write, flag write, and solver invocation the
driver performs, together with the value of the bar's `is_computed`
flag at that moment; the state transitions themselves are translated
line by line from the source.
-/

namespace MoJ

/-- State of one bar: the `is_computed` flag and the axial load
(meaningful only once `is_computed` is true).  Mirrors the bar fields
the core reads and writes (`bar.is_computed`, `bar.axial_load`). -/
structure BarState where
  is_computed : Bool
  axial_load : ℚ
deriving DecidableEq

/-- Global bar state: bar id ↦ bar fields. -/
abbrev State := ℕ → BarState

/-- A node: its index (`node.idx`), its ordered incidence list
(`node.bars`, bar ids), and its net external forces
(`node.GetNetXForce()` / `node.GetNetYForce()`). -/
structure Node where
  idx : ℕ
  bars : List ℕ
  fx : ℚ
  fy : ℚ

/-- The external geometry collaborator (`Geometry_Operations.py` is not
part of the core): `vec nodeIdx barId` models `BarNodeToVector(node, bar)`,
and `cosine` / `sine` model `CosineVectors` / `SineVectors`. -/
structure Geom where
  vec : ℕ → ℕ → ℚ × ℚ
  cosine : ℚ × ℚ → ℚ × ℚ → ℚ
  sine : ℚ × ℚ → ℚ × ℚ → ℚ

/-- `bar.axial_load = v` / `bar.SetAxialLoad(v)`. -/
def setLoad (s : State) (b : ℕ) (v : ℚ) : State :=
  fun i => if i = b then { s i with axial_load := v } else s i

/-- `bar.is_computed = True`. -/
def setComputed (s : State) (b : ℕ) : State :=
  fun i => if i = b then { s i with is_computed := true } else s i

/-- Ghost observation log of the driver's actions.  Each entry records
the `is_computed` flag(s) of the touched bar(s) at that moment. -/
inductive Event where
  | invokeY (nodeIdx a b : ℕ) (aComputed bComputed : Bool)
  | invokeX (nodeIdx a : ℕ) (aComputed : Bool)
  | writeLoad (bar : ℕ) (value : ℚ) (wasComputed : Bool)
  | markComputed (bar : ℕ) (wasComputed : Bool)
deriving DecidableEq

/-- Errors: `sys.exit` in `SumOfForcesInLocalY` (collinear geometry,
naming the node) and in the driver (no viable node found). -/
inductive MoJError where
  | geometry (nodeIdx : ℕ)
  | stuck
deriving DecidableEq

/-- The two normal ways out of the driver loop: every bar resolved
(final `return`), or the pass counter exceeded `len(bars) + 5`
(`print("Too many iterations"); return`). -/
inductive ExitKind where
  | converged
  | boundedExit
deriving DecidableEq

/-- `UnknownBars(node)`: the incident bars with `is_computed == False`,
in incidence-list order. -/
def UnknownBars (s : State) (node : Node) : List ℕ :=
  node.bars.filter (fun b => !(s b).is_computed)

/-- `NodeIsViable(node)`: true iff the node has 1 or 2 unknown bars. -/
def NodeIsViable (s : State) (node : Node) : Bool :=
  let unknowns := UnknownBars s node
  decide (1 ≤ unknowns.length) && decide (unknowns.length ≤ 2)

/-- `SumOfForcesInLocalX(node, local_x_bar)`: sums, along
`local_x_bar`'s direction, the cosine-projected net external forces and
the contributions of every *other* already-computed incident bar, then
stores the negated sum as `local_x_bar`'s load and marks it computed.
Returns the new state and the returned value `-sum_forces`. -/
def SumOfForcesInLocalX (g : Geom) (node : Node) (local_x_bar : ℕ) (s : State) :
    State × ℚ :=
  let local_x_vec := g.vec node.idx local_x_bar
  let base := node.fx * g.cosine local_x_vec (1, 0)
    + node.fy * g.cosine local_x_vec (0, 1)
  let sum_forces := node.bars.foldl
    (fun acc bar =>
      if bar ≠ local_x_bar ∧ (s bar).is_computed = true then
        acc + (s bar).axial_load * g.cosine local_x_vec (g.vec node.idx bar)
      else acc) base
  (setComputed (setLoad s local_x_bar (-sum_forces)) local_x_bar, -sum_forces)

/-- `SumOfForcesInLocalY(node, unknown_bars)`: with `unknown_bars[0]` as
the reference axis, sums the sine-projected net external forces and the
contributions of every already-computed incident bar; exits with a
geometry error naming the node when `|sin_theta| < 1e-9`, otherwise
stores `-sum_known_forces / sin_theta` as `unknown_bars[1]`'s load,
marks it computed, and returns that value. -/
def SumOfForcesInLocalY (g : Geom) (node : Node) (unknown_bars : List ℕ)
    (s : State) : Except MoJError (State × ℚ) :=
  let bar_0 := unknown_bars.getD 0 0
  let bar_target := unknown_bars.getD 1 0
  let local_x_vec := g.vec node.idx bar_0
  let base := node.fx * g.sine local_x_vec (1, 0)
    + node.fy * g.sine local_x_vec (0, 1)
  let sum_known := node.bars.foldl
    (fun acc bar =>
      if (s bar).is_computed = true then
        acc + (s bar).axial_load * g.sine local_x_vec (g.vec node.idx bar)
      else acc) base
  let target_vec := g.vec node.idx bar_target
  let sin_theta := g.sine local_x_vec target_vec
  if |sin_theta| < 1 / 1000000000 then
    .error (.geometry node.idx)
  else
    let v := -sum_known / sin_theta
    .ok (setComputed (setLoad s bar_target v) bar_target, v)

/-- The body of the driver's `for node in nodes` loop at one node:
if the node is viable, solve its one or two unknown bars exactly as
lines 129–154 of `Method_of_Joints.py` do (the redundant
`SetAxialLoad` / `is_computed = True` pair after each solver call
included), and report whether progress was made.  The event list is the
ghost log of invocations and writes. -/
def processNode (g : Geom) (node : Node) (s : State) :
    Except MoJError (State × List Event × Bool) :=
  if NodeIsViable s node = true then
    let unknowns := UnknownBars s node
    if unknowns.length = 2 then
      let a := unknowns.getD 0 0
      let b := unknowns.getD 1 0
      match SumOfForcesInLocalY g node unknowns s with
      | .error e => .error e
      | .ok (s1, force_2) =>
        -- driver lines 137–138: unknowns[1].SetAxialLoad(force_2); .is_computed = True
        let s2 := setComputed (setLoad s1 b force_2) b
        let s3 := (SumOfForcesInLocalX g node a s2).1
        let force_1 := (SumOfForcesInLocalX g node a s2).2
        -- driver lines 142–143: unknowns[0].SetAxialLoad(force_1); .is_computed = True
        let s4 := setComputed (setLoad s3 a force_1) a
        let ev : List Event :=
          [.invokeY node.idx a b (s a).is_computed (s b).is_computed,
           .writeLoad b force_2 (s b).is_computed,
           .markComputed b (s b).is_computed,
           .writeLoad b force_2 (s1 b).is_computed,
           .markComputed b (s1 b).is_computed,
           .invokeX node.idx a (s2 a).is_computed,
           .writeLoad a force_1 (s2 a).is_computed,
           .markComputed a (s2 a).is_computed,
           .writeLoad a force_1 (s3 a).is_computed,
           .markComputed a (s3 a).is_computed]
        .ok (s4, ev, true)
    else if unknowns.length = 1 then
      let a := unknowns.getD 0 0
      let s1 := (SumOfForcesInLocalX g node a s).1
      let force := (SumOfForcesInLocalX g node a s).2
      -- driver lines 151–152
      let s2 := setComputed (setLoad s1 a force) a
      let ev : List Event :=
        [.invokeX node.idx a (s a).is_computed,
         .writeLoad a force (s a).is_computed,
         .markComputed a (s a).is_computed,
         .writeLoad a force (s1 a).is_computed,
         .markComputed a (s1 a).is_computed]
      .ok (s2, ev, true)
    else .ok (s, [], false)
  else .ok (s, [], false)

/-- One full pass of the driver's `for node in nodes` loop:
nodes are visited in list order and each sees the state left by its
predecessors (viability is re-evaluated live). -/
def runPass (g : Geom) : List Node → State → Except MoJError (State × List Event × Bool)
  | [], s => .ok (s, [], false)
  | node :: rest, s =>
    match processNode g node s with
    | .error e => .error e
    | .ok (s1, ev1, p1) =>
      match runPass g rest s1 with
      | .error e => .error e
      | .ok (s2, ev2, p2) => .ok (s2, ev1 ++ ev2, p1 || p2)

/-- `DoIhaveAnUnknownMember(nodes)`: some node has an unknown incident bar. -/
def DoIhaveAnUnknownMember (nodes : List Node) (s : State) : Bool :=
  nodes.any (fun node => decide (0 < (UnknownBars s node).length))

/-- The driver's `while` loop.  `budget` is `len(bars) + 5 - counter`,
so the Python test `counter > len(bars) + 5` (after `counter += 1`)
fires exactly when `budget = 0`. -/
def iterAux (g : Geom) (nodes : List Node) :
    ℕ → State → Except MoJError (ExitKind × State × List Event)
  | budget, s =>
    if DoIhaveAnUnknownMember nodes s = true then
      match runPass g nodes s with
      | .error e => .error e
      | .ok (s1, ev, progress) =>
        if progress = false then .error .stuck
        else
          match budget with
          | 0 => .ok (.boundedExit, s1, ev)
          | b + 1 =>
            match iterAux g nodes b s1 with
            | .error e => .error e
            | .ok (k, s2, ev2) => .ok (k, s2, ev ++ ev2)
    else .ok (.converged, s, [])

/-- `IterateUsingMethodOfJoints(nodes, bars)`: the driver's entry point;
`bars` is consulted only for its length (the pass bound). -/
def IterateUsingMethodOfJoints (g : Geom) (nodes : List Node) (bars : List ℕ)
    (s : State) : Except MoJError (ExitKind × State × List Event) :=
  iterAux g nodes (bars.length + 5) s

/-- Projection: the exit kind of a normal driver run. -/
def exitOf (r : Except MoJError (ExitKind × State × List Event)) : Option ExitKind :=
  match r with
  | .ok (k, _, _) => some k
  | .error _ => none

/-- Projection: the `is_computed` flag of bar `b` after a normal run. -/
def barComputedOf (r : Except MoJError (ExitKind × State × List Event)) (b : ℕ) :
    Option Bool :=
  match r with
  | .ok (_, s, _) => some (s b).is_computed
  | .error _ => none

/-- Projection: the event log of a normal run. -/
def traceOf (r : Except MoJError (ExitKind × State × List Event)) : Option (List Event) :=
  match r with
  | .ok (_, _, ev) => some ev
  | .error _ => none

/-- Initial state: no bar computed, all loads zero. -/
def s0 : State := fun _ => ⟨false, 0⟩

/-- A trivial concrete geometry: all sines 1 (never collinear), cosines 0. -/
def gZero : Geom := ⟨fun _ _ => (0, 0), fun _ _ => 0, fun _ _ => 1⟩

/-- Membership in `UnknownBars` forces the flag to be false. -/
theorem mem_unknownBars {s : State} {node : Node} {b : ℕ}
    (h : b ∈ UnknownBars s node) : b ∈ node.bars ∧ (s b).is_computed = false := by
  have h' := List.mem_filter.mp h
  refine ⟨h'.1, ?_⟩
  simpa using h'.2

/-- `DoIhaveAnUnknownMember` is false exactly when every incident bar of
every node is computed. -/
theorem doIhave_eq_false {nodes : List Node} {s : State}
    (h : ∀ n ∈ nodes, ∀ b ∈ n.bars, (s b).is_computed = true) :
    DoIhaveAnUnknownMember nodes s = false := by
  unfold DoIhaveAnUnknownMember
  rw [List.any_eq_false]
  intro node hnode
  have : UnknownBars s node = [] := by
    unfold UnknownBars
    rw [List.filter_eq_nil_iff]
    intro b hb
    simp [h node hnode b hb]
  simp [this]

/-- **C8**: `NodeIsViable` holds iff the node has one or two unknown
incident bars; `UnknownBars` is the subsequence of the node's incidence
list (native order) consisting exactly of the bars whose `is_computed`
flag is false.  Both functions are pure: they take and return no state. -/
theorem nodeIsViable_unknownBars_spec (s : State) (node : Node) :
    (NodeIsViable s node = true ↔
      1 ≤ (UnknownBars s node).length ∧ (UnknownBars s node).length ≤ 2) ∧
    (UnknownBars s node).Sublist node.bars ∧
    (∀ b : ℕ, (UnknownBars s node).count b =
      if (s b).is_computed = true then 0 else node.bars.count b) := by
  refine ⟨?_, ?_, ?_⟩
  · unfold NodeIsViable
    simp
  · exact List.filter_sublist node.bars
  · intro b
    by_cases hb : (s b).is_computed = true
    · rw [if_pos hb]
      rw [List.count_eq_zero]
      intro hmem
      have := (mem_unknownBars hmem).2
      rw [hb] at this
      exact Bool.noConfusion this
    · rw [if_neg hb]
      unfold UnknownBars
      apply List.count_filter
      simp [Bool.not_eq_true] at hb
      simp [hb]

/-- **C10**: the driver detects unknown bars only through the nodes'
incidence lists: with an empty node list, or when every incident bar of
every node is already computed, the `while` condition fails at entry and
the driver returns at once as converged, with the state unchanged (so a
bar incident to no node is left exactly as it was, unresolved). -/
theorem iterate_returns_immediately (g : Geom) (nodes : List Node)
    (bars : List ℕ) (s : State)
    (h : nodes = [] ∨ ∀ n ∈ nodes, ∀ b ∈ n.bars, (s b).is_computed = true) :
    IterateUsingMethodOfJoints g nodes bars s = .ok (.converged, s, []) := by
  have hno : DoIhaveAnUnknownMember nodes s = false := by
    rcases h with h | h
    · subst h; rfl
    · exact doIhave_eq_false h
  unfold IterateUsingMethodOfJoints iterAux
  simp [hno]

/-- Witness for C10: an empty node list with a (necessarily
non-incident) unresolved bar `0`: the driver converges immediately,
returns the untouched initial state, and bar `0` stays unresolved. -/
theorem iterate_returns_immediately_witness :
    IterateUsingMethodOfJoints gZero [] [0] s0 = .ok (.converged, s0, []) ∧
    (s0 0).is_computed = false :=
  ⟨iterate_returns_immediately gZero [] [0] s0 (Or.inl rfl), rfl⟩

/-- A conditional `foldl` accumulation is the base plus the sum over the
filtered list. -/
theorem foldl_filter_sum {α : Type} (p : α → Prop) [DecidablePred p] (f : α → ℚ) :
    ∀ (l : List α) (init : ℚ),
      l.foldl (fun acc x => if p x then acc + f x else acc) init
        = init + ((l.filter fun x => decide (p x)).map f).sum := by
  intro l
  induction l with
  | nil => intro init; simp
  | cons x xs ih =>
    intro init
    by_cases h : p x
    · simp only [List.foldl_cons, if_pos h, List.filter_cons,
        decide_eq_true h, if_pos, List.map_cons, List.sum_cons, ih]
      ring
    · simp only [List.foldl_cons, if_neg h, List.filter_cons,
        decide_eq_false h, List.map_cons, List.sum_cons, ih]
      simp [h]

/-- A sample geometry: direction vectors `(1, barId)`, cosine as a dot
product, sine as a cross product. -/
def gTest : Geom :=
  ⟨fun _ b => (1, (b : ℚ)), fun u v => u.1 * v.1 + u.2 * v.2,
   fun u v => u.1 * v.2 - u.2 * v.1⟩

/-- A degenerate geometry whose sine is identically zero (collinear bars). -/
def gColl : Geom := ⟨fun _ _ => (1, 0), fun _ _ => 1, fun _ _ => 0⟩

/-- A sample node with two incident bars and nonzero external forces. -/
def nodeW : Node := ⟨0, [0, 1], 2, 3⟩

/-- A sample state in which bar `1` is already computed with load `5`. -/
def sW : State := fun i => if i = 1 then ⟨true, 5⟩ else ⟨false, 0⟩

/-- **C5**: when every incident bar other than `target` is already
computed, `SumOfForcesInLocalX` returns, stores, and marks computed the
negation of: net external x-force times the cosine against global X,
plus net external y-force times the cosine against global Y, plus each
other incident bar's load times the cosine between the target's
direction and that bar's direction; all other bars are untouched. -/
theorem sumX_spec (g : Geom) (node : Node) (t : ℕ) (s : State)
    (hpre : ∀ b ∈ node.bars, b ≠ t → (s b).is_computed = true) :
    (SumOfForcesInLocalX g node t s).2 =
      -(node.fx * g.cosine (g.vec node.idx t) (1, 0)
        + node.fy * g.cosine (g.vec node.idx t) (0, 1)
        + (((node.bars.filter fun b => decide (b ≠ t)).map
            (fun b => (s b).axial_load
              * g.cosine (g.vec node.idx t) (g.vec node.idx b))).sum)) ∧
    ((SumOfForcesInLocalX g node t s).1 t).axial_load
      = (SumOfForcesInLocalX g node t s).2 ∧
    ((SumOfForcesInLocalX g node t s).1 t).is_computed = true ∧
    (∀ c, c ≠ t → (SumOfForcesInLocalX g node t s).1 c = s c) := by
  have hfold := foldl_filter_sum
    (fun bar => bar ≠ t ∧ (s bar).is_computed = true)
    (fun bar => (s bar).axial_load * g.cosine (g.vec node.idx t) (g.vec node.idx bar))
    node.bars
    (node.fx * g.cosine (g.vec node.idx t) (1, 0)
      + node.fy * g.cosine (g.vec node.idx t) (0, 1))
  have hfilter :
      (node.bars.filter fun x => decide (x ≠ t ∧ (s x).is_computed = true))
        = node.bars.filter fun b => decide (b ≠ t) := by
    apply List.filter_congr
    intro b hb
    by_cases hbt : b = t
    · simp [hbt]
    · simp [hbt, hpre b hb hbt]
  refine ⟨?_, ?_, ?_, ?_⟩
  · unfold SumOfForcesInLocalX
    simp only [hfold, hfilter]
  · unfold SumOfForcesInLocalX setLoad setComputed
    simp
  · unfold SumOfForcesInLocalX setLoad setComputed
    simp
  · intro c hc
    unfold SumOfForcesInLocalX setLoad setComputed
    simp [hc]

/-- Witness for C5: at the sample node (forces `(2, 3)`, bars `0`, `1`,
bar `1` computed with load `5`, dot-product cosine), solving for bar `0`
yields and stores `-7`. -/
theorem sumX_spec_witness :
    (∀ b ∈ nodeW.bars, b ≠ 0 → (sW b).is_computed = true) ∧
    (SumOfForcesInLocalX gTest nodeW 0 sW).2 =
      -(nodeW.fx * gTest.cosine (gTest.vec nodeW.idx 0) (1, 0)
        + nodeW.fy * gTest.cosine (gTest.vec nodeW.idx 0) (0, 1)
        + (((nodeW.bars.filter fun b => decide (b ≠ 0)).map
            (fun b => (sW b).axial_load
              * gTest.cosine (gTest.vec nodeW.idx 0) (gTest.vec nodeW.idx b))).sum)) ∧
    (SumOfForcesInLocalX gTest nodeW 0 sW).2 = -7 ∧
    ((SumOfForcesInLocalX gTest nodeW 0 sW).1 0).is_computed = true := by
  have h := sumX_spec gTest nodeW 0 sW (by decide)
  refine ⟨by decide, h.1, ?_, h.2.2.1⟩
  rw [h.1]
  norm_num [gTest, nodeW, sW]

/-- **C3**: `SumOfForcesInLocalY(node, [a, b])` fails—with a geometry
error naming exactly `node.idx`, returning no state at all (so nothing
is written and no division is performed)—iff
`|sine(dir a, dir b)| < 1e-9`; otherwise the sine is provably nonzero
(the division is genuine, never a silent `inf`/`NaN`), and the call
stores and returns `-(external sine-projections + each computed
incident bar's load times its sine against bar `a`) / sine(a, b)` for
bar `b`, marks `b` computed, and leaves every other bar untouched. -/
theorem sumY_spec (g : Geom) (node : Node) (a b : ℕ) (s : State) :
    (SumOfForcesInLocalY g node [a, b] s = .error (.geometry node.idx) ↔
      |g.sine (g.vec node.idx a) (g.vec node.idx b)| < 1 / 1000000000) ∧
    (∀ e, SumOfForcesInLocalY g node [a, b] s = .error e →
      e = .geometry node.idx) ∧
    (¬ |g.sine (g.vec node.idx a) (g.vec node.idx b)| < 1 / 1000000000 →
      g.sine (g.vec node.idx a) (g.vec node.idx b) ≠ 0 ∧
      ∃ s', SumOfForcesInLocalY g node [a, b] s =
          .ok (s',
            -(node.fx * g.sine (g.vec node.idx a) (1, 0)
              + node.fy * g.sine (g.vec node.idx a) (0, 1)
              + (((node.bars.filter fun c => (s c).is_computed).map
                  (fun c => (s c).axial_load
                    * g.sine (g.vec node.idx a) (g.vec node.idx c))).sum))
            / g.sine (g.vec node.idx a) (g.vec node.idx b)) ∧
        (s' b).axial_load =
          -(node.fx * g.sine (g.vec node.idx a) (1, 0)
            + node.fy * g.sine (g.vec node.idx a) (0, 1)
            + (((node.bars.filter fun c => (s c).is_computed).map
                (fun c => (s c).axial_load
                  * g.sine (g.vec node.idx a) (g.vec node.idx c))).sum))
          / g.sine (g.vec node.idx a) (g.vec node.idx b) ∧
        (s' b).is_computed = true ∧
        (∀ c, c ≠ b → s' c = s c)) := by
  have hfold := foldl_filter_sum
    (fun bar => (s bar).is_computed = true)
    (fun bar => (s bar).axial_load * g.sine (g.vec node.idx a) (g.vec node.idx bar))
    node.bars
    (node.fx * g.sine (g.vec node.idx a) (1, 0)
      + node.fy * g.sine (g.vec node.idx a) (0, 1))
  have hfilter :
      (node.bars.filter fun x => decide ((s x).is_computed = true))
        = node.bars.filter fun c => (s c).is_computed := by
    apply List.filter_congr
    intro c _
    cases h : (s c).is_computed <;> simp [h]
  by_cases hsin : |g.sine (g.vec node.idx a) (g.vec node.idx b)| < 1 / 1000000000
  · have herr : SumOfForcesInLocalY g node [a, b] s = .error (.geometry node.idx) := by
      unfold SumOfForcesInLocalY
      simp only [List.getD_cons_zero, List.getD_cons_succ]
      rw [if_pos hsin]
    refine ⟨⟨fun _ => hsin, fun _ => herr⟩, fun e he => ?_, fun hc => absurd hsin hc⟩
    rw [herr] at he
    exact ((Except.error.injEq _ _).mp he).symm
  · have hok : SumOfForcesInLocalY g node [a, b] s =
        .ok (setComputed (setLoad s b
            (-(node.bars.foldl
              (fun acc bar =>
                if (s bar).is_computed = true then
                  acc + (s bar).axial_load
                    * g.sine (g.vec node.idx a) (g.vec node.idx bar)
                else acc)
              (node.fx * g.sine (g.vec node.idx a) (1, 0)
                + node.fy * g.sine (g.vec node.idx a) (0, 1)))
            / g.sine (g.vec node.idx a) (g.vec node.idx b))) b,
          -(node.bars.foldl
              (fun acc bar =>
                if (s bar).is_computed = true then
                  acc + (s bar).axial_load
                    * g.sine (g.vec node.idx a) (g.vec node.idx bar)
                else acc)
              (node.fx * g.sine (g.vec node.idx a) (1, 0)
                + node.fy * g.sine (g.vec node.idx a) (0, 1)))
            / g.sine (g.vec node.idx a) (g.vec node.idx b)) := by
      unfold SumOfForcesInLocalY
      simp only [List.getD_cons_zero, List.getD_cons_succ]
      rw [if_neg hsin]
    refine ⟨⟨fun hcontra => ?_, fun h => absurd h hsin⟩, fun e he => ?_, fun _ => ?_⟩
    · rw [hok] at hcontra
      exact Except.noConfusion hcontra
    · rw [hok] at he
      exact Except.noConfusion he
    · refine ⟨fun h0 => hsin (by simp [h0]), ?_⟩
      have hok2 := hok
      rw [hfold, hfilter] at hok2
      refine ⟨_, hok2, ?_, ?_, ?_⟩
      · unfold setLoad setComputed
        simp
      · unfold setLoad setComputed
        simp
      · intro c hc
        unfold setLoad setComputed
        simp [hc]

/-- Witness for C3: with the cross-product sine the sample node's bars
`0`, `1` have sine `1`, so the solver succeeds and bar `1` gets load
`-3`; with the identically-zero sine the same call fails with the
geometry error naming node `0`. -/
theorem sumY_spec_witness :
    (¬ |gTest.sine (gTest.vec 0 0) (gTest.vec 0 1)| < 1 / 1000000000) ∧
    (gTest.sine (gTest.vec nodeW.idx 0) (gTest.vec nodeW.idx 1) ≠ 0 ∧
      ∃ s', SumOfForcesInLocalY gTest nodeW [0, 1] s0 =
          .ok (s',
            -(nodeW.fx * gTest.sine (gTest.vec nodeW.idx 0) (1, 0)
              + nodeW.fy * gTest.sine (gTest.vec nodeW.idx 0) (0, 1)
              + (((nodeW.bars.filter fun c => (s0 c).is_computed).map
                  (fun c => (s0 c).axial_load
                    * gTest.sine (gTest.vec nodeW.idx 0) (gTest.vec nodeW.idx c))).sum))
            / gTest.sine (gTest.vec nodeW.idx 0) (gTest.vec nodeW.idx 1)) ∧
        (s' 1).axial_load =
          -(nodeW.fx * gTest.sine (gTest.vec nodeW.idx 0) (1, 0)
            + nodeW.fy * gTest.sine (gTest.vec nodeW.idx 0) (0, 1)
            + (((nodeW.bars.filter fun c => (s0 c).is_computed).map
                (fun c => (s0 c).axial_load
                  * gTest.sine (gTest.vec nodeW.idx 0) (gTest.vec nodeW.idx c))).sum))
          / gTest.sine (gTest.vec nodeW.idx 0) (gTest.vec nodeW.idx 1) ∧
        (s' 1).is_computed = true ∧
        (∀ c, c ≠ 1 → s' c = s0 c)) ∧
    SumOfForcesInLocalY gColl nodeW [0, 1] s0 = .error (.geometry 0) := by
  have hne : ¬ |gTest.sine (gTest.vec 0 0) (gTest.vec 0 1)| < 1 / 1000000000 := by
    norm_num [gTest]
  refine ⟨hne, (sumY_spec gTest nodeW 0 1 s0).2.2 (by norm_num [gTest, nodeW]), ?_⟩
  refine (sumY_spec gColl nodeW 0 1 s0).1.mpr (by norm_num [gColl])

theorem setLoad_ne {s : State} {b c : ℕ} {v : ℚ} (h : c ≠ b) : setLoad s b v c = s c := by
  unfold setLoad
  simp [h]

theorem setComputed_ne {s : State} {b c : ℕ} (h : c ≠ b) : setComputed s b c = s c := by
  unfold setComputed
  simp [h]

/-- Writing a load and marking computed does not touch other bars. -/
theorem markPair_ne {s : State} {b c : ℕ} {v : ℚ} (h : c ≠ b) :
    setComputed (setLoad s b v) b c = s c := by
  rw [setComputed_ne h, setLoad_ne h]

/-- Writing a load and marking computed never clears a computed flag. -/
theorem markPair_flag {s : State} {b c : ℕ} {v : ℚ} (h : (s c).is_computed = true) :
    (setComputed (setLoad s b v) b c).is_computed = true := by
  by_cases hc : c = b
  · subst hc
    unfold setComputed
    simp
  · rw [markPair_ne hc]
    exact h

/-- The state returned by `SumOfForcesInLocalX` writes exactly the target. -/
theorem sumX_fst (g : Geom) (node : Node) (t : ℕ) (s : State) :
    (SumOfForcesInLocalX g node t s).1
      = setComputed (setLoad s t ((SumOfForcesInLocalX g node t s).2)) t := rfl

theorem sumX_ne (g : Geom) (node : Node) (t : ℕ) (s : State) {c : ℕ} (h : c ≠ t) :
    (SumOfForcesInLocalX g node t s).1 c = s c := by
  rw [sumX_fst]
  exact markPair_ne h

theorem sumX_flag_mono (g : Geom) (node : Node) (t : ℕ) (s : State) {c : ℕ}
    (h : (s c).is_computed = true) :
    ((SumOfForcesInLocalX g node t s).1 c).is_computed = true := by
  rw [sumX_fst]
  exact markPair_flag h

/-- On success, `SumOfForcesInLocalY` writes exactly `unknown_bars[1]`. -/
theorem sumY_ok_fst {g : Geom} {node : Node} {ub : List ℕ} {s s' : State} {v : ℚ}
    (h : SumOfForcesInLocalY g node ub s = .ok (s', v)) :
    s' = setComputed (setLoad s (ub.getD 1 0) v) (ub.getD 1 0) := by
  simp only [SumOfForcesInLocalY] at h
  split at h
  · exact Except.noConfusion h
  · simp only [Except.ok.injEq, Prod.mk.injEq] at h
    obtain ⟨h1, h2⟩ := h
    subst h2
    exact h1.symm

theorem sumY_ok_ne {g : Geom} {node : Node} {ub : List ℕ} {s s' : State} {v : ℚ}
    (h : SumOfForcesInLocalY g node ub s = .ok (s', v)) {c : ℕ}
    (hc : c ≠ ub.getD 1 0) : s' c = s c := by
  rw [sumY_ok_fst h]
  exact markPair_ne hc

theorem sumY_ok_flag_mono {g : Geom} {node : Node} {ub : List ℕ} {s s' : State} {v : ℚ}
    (h : SumOfForcesInLocalY g node ub s = .ok (s', v)) {c : ℕ}
    (hc : (s c).is_computed = true) : (s' c).is_computed = true := by
  rw [sumY_ok_fst h]
  exact markPair_flag hc

/-- An in-range `getD` is a member of the list. -/
theorem getD_mem {l : List ℕ} {i : ℕ} (h : i < l.length) : l.getD i 0 ∈ l := by
  rw [List.getD_eq_getElem l 0 h]
  exact List.getElem_mem h

/-- A bar already computed is untouched by `processNode`. -/
theorem processNode_ok_preserves {g : Geom} {node : Node} {s s' : State}
    {ev : List Event} {p : Bool}
    (h : processNode g node s = .ok (s', ev, p)) {c : ℕ}
    (hc : (s c).is_computed = true) : s' c = s c := by
  have hmem : ∀ {x : ℕ}, x ∈ UnknownBars s node → c ≠ x := by
    intro x hx he
    have hfalse := (mem_unknownBars hx).2
    rw [← he, hc] at hfalse
    exact Bool.noConfusion hfalse
  simp only [processNode] at h
  split at h
  · split at h
    · -- two unknown bars
      rename_i h2
      split at h
      · exact Except.noConfusion h
      · rename_i s1 force2 hY
        simp only [Except.ok.injEq, Prod.mk.injEq] at h
        obtain ⟨hs', -, -⟩ := h
        have hx : c ≠ (UnknownBars s node).getD 0 0 :=
          hmem (getD_mem (by rw [h2]; norm_num))
        have hy : c ≠ (UnknownBars s node).getD 1 0 :=
          hmem (getD_mem (by rw [h2]; norm_num))
        rw [← hs', markPair_ne hx, sumX_ne _ _ _ _ hx, markPair_ne hy,
          sumY_ok_ne hY hy]
    · split at h
      · -- one unknown bar
        rename_i h2 h1
        simp only [Except.ok.injEq, Prod.mk.injEq] at h
        obtain ⟨hs', -, -⟩ := h
        have hx : c ≠ (UnknownBars s node).getD 0 0 :=
          hmem (getD_mem (by rw [h1]; norm_num))
        rw [← hs', markPair_ne hx, sumX_ne _ _ _ _ hx]
      · simp only [Except.ok.injEq, Prod.mk.injEq] at h
        obtain ⟨hs', -, -⟩ := h
        rw [← hs']
  · simp only [Except.ok.injEq, Prod.mk.injEq] at h
    obtain ⟨hs', -, -⟩ := h
    rw [← hs']

/-- A bar already computed is untouched by a whole pass. -/
theorem runPass_ok_preserves {g : Geom} : ∀ {nodes : List Node} {s s' : State}
    {ev : List Event} {p : Bool},
    runPass g nodes s = .ok (s', ev, p) →
    ∀ {c : ℕ}, (s c).is_computed = true → s' c = s c := by
  intro nodes
  induction nodes with
  | nil =>
    intro s s' ev p h c hc
    simp only [runPass, Except.ok.injEq, Prod.mk.injEq] at h
    rw [← h.1]
  | cons node rest ih =>
    intro s s' ev p h c hc
    unfold runPass at h
    cases hP : processNode g node s with
    | error e => rw [hP] at h; exact Except.noConfusion h
    | ok t1 =>
      obtain ⟨s1, ev1, p1⟩ := t1
      rw [hP] at h
      simp only [] at h
      cases hR : runPass g rest s1 with
      | error e => rw [hR] at h; exact Except.noConfusion h
      | ok t2 =>
        obtain ⟨s2, ev2, p2⟩ := t2
        rw [hR] at h
        simp only [Except.ok.injEq, Prod.mk.injEq] at h
        obtain ⟨hs', -, -⟩ := h
        have hpres := processNode_ok_preserves hP hc
        have hc1 : (s1 c).is_computed = true := by rw [hpres]; exact hc
        rw [← hs', ih hR hc1, hpres]

/-- A bar already computed is untouched by the whole driver loop. -/
theorem iterAux_ok_preserves {g : Geom} {nodes : List Node} :
    ∀ {budget : ℕ} {s : State} {k : ExitKind} {s' : State} {tr : List Event},
    iterAux g nodes budget s = .ok (k, s', tr) →
    ∀ {c : ℕ}, (s c).is_computed = true → s' c = s c := by
  intro budget
  induction budget with
  | zero =>
    intro s k s' tr h c hc
    unfold iterAux at h
    by_cases hun : DoIhaveAnUnknownMember nodes s = true
    · rw [if_pos hun] at h
      cases hP : runPass g nodes s with
      | error e => rw [hP] at h; exact Except.noConfusion h
      | ok t1 =>
        obtain ⟨s1, ev, prog⟩ := t1
        rw [hP] at h
        simp only [] at h
        by_cases hprog : prog = false
        · rw [if_pos hprog] at h
          exact Except.noConfusion h
        · rw [if_neg hprog] at h
          simp only [Except.ok.injEq, Prod.mk.injEq] at h
          obtain ⟨-, hs', -⟩ := h
          rw [← hs']
          exact runPass_ok_preserves hP hc
    · rw [if_neg hun] at h
      simp only [Except.ok.injEq, Prod.mk.injEq] at h
      obtain ⟨-, hs', -⟩ := h
      rw [← hs']
  | succ b ih =>
    intro s k s' tr h c hc
    unfold iterAux at h
    by_cases hun : DoIhaveAnUnknownMember nodes s = true
    · rw [if_pos hun] at h
      cases hP : runPass g nodes s with
      | error e => rw [hP] at h; exact Except.noConfusion h
      | ok t1 =>
        obtain ⟨s1, ev, prog⟩ := t1
        rw [hP] at h
        simp only [] at h
        by_cases hprog : prog = false
        · rw [if_pos hprog] at h
          exact Except.noConfusion h
        · rw [if_neg hprog] at h
          cases hI : iterAux g nodes b s1 with
          | error e => rw [hI] at h; exact Except.noConfusion h
          | ok t2 =>
            obtain ⟨k2, s2, ev2⟩ := t2
            rw [hI] at h
            simp only [Except.ok.injEq, Prod.mk.injEq] at h
            obtain ⟨-, hs', -⟩ := h
            have hpres := runPass_ok_preserves hP hc
            have hc1 : (s1 c).is_computed = true := by rw [hpres]; exact hc
            rw [← hs', ih hI hc1, hpres]
    · rw [if_neg hun] at h
      simp only [Except.ok.injEq, Prod.mk.injEq] at h
      obtain ⟨-, hs', -⟩ := h
      rw [← hs']

/-- The solver-invocation events whose recorded flags must be false:
an invocation of a solver on an already-resolved bar would show up as a
`true` flag here. -/
def InvokeFlagsFalse : Event → Prop
  | .invokeY _ _ _ fa fb => fa = false ∧ fb = false
  | .invokeX _ _ f => f = false
  | _ => True

/-- Every solver invocation `processNode` performs is on bars whose
`is_computed` flag is false at the moment of the call. -/
theorem processNode_ok_invokes {g : Geom} {node : Node} {s s' : State}
    {ev : List Event} {p : Bool} (hnd : node.bars.Nodup)
    (h : processNode g node s = .ok (s', ev, p)) :
    ∀ e ∈ ev, InvokeFlagsFalse e := by
  have hUnd : (UnknownBars s node).Nodup := hnd.filter _
  simp only [processNode] at h
  split at h
  · split at h
    · rename_i h2
      split at h
      · exact Except.noConfusion h
      · rename_i s1 force2 hY
        simp only [Except.ok.injEq, Prod.mk.injEq] at h
        obtain ⟨-, hev, -⟩ := h
        have hlt0 : 0 < (UnknownBars s node).length := by rw [h2]; norm_num
        have hlt1 : 1 < (UnknownBars s node).length := by rw [h2]; norm_num
        have hx : (s ((UnknownBars s node).getD 0 0)).is_computed = false :=
          (mem_unknownBars (getD_mem hlt0)).2
        have hy : (s ((UnknownBars s node).getD 1 0)).is_computed = false :=
          (mem_unknownBars (getD_mem hlt1)).2
        have hxy : (UnknownBars s node).getD 0 0 ≠ (UnknownBars s node).getD 1 0 := by
          rw [List.getD_eq_getElem _ 0 hlt0, List.getD_eq_getElem _ 0 hlt1]
          intro he
          have h01 := (List.Nodup.getElem_inj_iff hUnd).mp he
          exact absurd h01 (by norm_num)
        have hs2x : ((setComputed
            (setLoad s1 ((UnknownBars s node).getD 1 0) force2)
            ((UnknownBars s node).getD 1 0))
            ((UnknownBars s node).getD 0 0)).is_computed = false := by
          rw [markPair_ne hxy, sumY_ok_ne hY hxy]
          exact hx
        intro e he
        rw [← hev] at he
        simp only [List.mem_cons, List.not_mem_nil, or_false] at he
        rcases he with rfl | rfl | rfl | rfl | rfl | rfl | rfl | rfl | rfl | rfl
        · exact ⟨hx, hy⟩
        · trivial
        · trivial
        · trivial
        · trivial
        · exact hs2x
        · trivial
        · trivial
        · trivial
        · trivial
    · split at h
      · rename_i h2 h1
        simp only [Except.ok.injEq, Prod.mk.injEq] at h
        obtain ⟨-, hev, -⟩ := h
        have hx : (s ((UnknownBars s node).getD 0 0)).is_computed = false :=
          (mem_unknownBars (getD_mem (by rw [h1]; norm_num))).2
        intro e he
        rw [← hev] at he
        simp only [List.mem_cons, List.not_mem_nil, or_false] at he
        rcases he with rfl | rfl | rfl | rfl | rfl
        · exact hx
        · trivial
        · trivial
        · trivial
        · trivial
      · simp only [Except.ok.injEq, Prod.mk.injEq] at h
        obtain ⟨-, hev, -⟩ := h
        intro e he
        rw [← hev] at he
        exact absurd he (List.not_mem_nil e)
  · simp only [Except.ok.injEq, Prod.mk.injEq] at h
    obtain ⟨-, hev, -⟩ := h
    intro e he
    rw [← hev] at he
    exact absurd he (List.not_mem_nil e)

/-- Every solver invocation during a pass is on unresolved bars. -/
theorem runPass_ok_invokes {g : Geom} : ∀ {nodes : List Node} {s s' : State}
    {ev : List Event} {p : Bool},
    (∀ n ∈ nodes, n.bars.Nodup) →
    runPass g nodes s = .ok (s', ev, p) → ∀ e ∈ ev, InvokeFlagsFalse e := by
  intro nodes
  induction nodes with
  | nil =>
    intro s s' ev p hnd h e he
    simp only [runPass, Except.ok.injEq, Prod.mk.injEq] at h
    rw [← h.2.1] at he
    exact absurd he (List.not_mem_nil e)
  | cons node rest ih =>
    intro s s' ev p hnd h e he
    unfold runPass at h
    cases hP : processNode g node s with
    | error er => rw [hP] at h; exact Except.noConfusion h
    | ok t1 =>
      obtain ⟨s1, ev1, p1⟩ := t1
      rw [hP] at h
      simp only [] at h
      cases hR : runPass g rest s1 with
      | error er => rw [hR] at h; exact Except.noConfusion h
      | ok t2 =>
        obtain ⟨s2, ev2, p2⟩ := t2
        rw [hR] at h
        simp only [Except.ok.injEq, Prod.mk.injEq] at h
        obtain ⟨-, hev, -⟩ := h
        rw [← hev] at he
        rcases List.mem_append.mp he with h1 | h2
        · exact processNode_ok_invokes (hnd node (List.mem_cons_self node rest)) hP e h1
        · exact ih (fun n hn => hnd n (List.mem_cons_of_mem node hn)) hR e h2

/-- Every solver invocation during an entire driver run is on unresolved
bars. -/
theorem iterAux_ok_invokes {g : Geom} {nodes : List Node}
    (hnd : ∀ n ∈ nodes, n.bars.Nodup) :
    ∀ {budget : ℕ} {s : State} {k : ExitKind} {s' : State} {tr : List Event},
    iterAux g nodes budget s = .ok (k, s', tr) → ∀ e ∈ tr, InvokeFlagsFalse e := by
  intro budget
  induction budget with
  | zero =>
    intro s k s' tr h e he
    unfold iterAux at h
    by_cases hun : DoIhaveAnUnknownMember nodes s = true
    · rw [if_pos hun] at h
      cases hP : runPass g nodes s with
      | error er => rw [hP] at h; exact Except.noConfusion h
      | ok t1 =>
        obtain ⟨s1, ev, prog⟩ := t1
        rw [hP] at h
        simp only [] at h
        by_cases hprog : prog = false
        · rw [if_pos hprog] at h
          exact Except.noConfusion h
        · rw [if_neg hprog] at h
          simp only [Except.ok.injEq, Prod.mk.injEq] at h
          obtain ⟨-, -, hev⟩ := h
          rw [← hev] at he
          exact runPass_ok_invokes hnd hP e he
    · rw [if_neg hun] at h
      simp only [Except.ok.injEq, Prod.mk.injEq] at h
      obtain ⟨-, -, hev⟩ := h
      rw [← hev] at he
      exact absurd he (List.not_mem_nil e)
  | succ b ih =>
    intro s k s' tr h e he
    unfold iterAux at h
    by_cases hun : DoIhaveAnUnknownMember nodes s = true
    · rw [if_pos hun] at h
      cases hP : runPass g nodes s with
      | error er => rw [hP] at h; exact Except.noConfusion h
      | ok t1 =>
        obtain ⟨s1, ev, prog⟩ := t1
        rw [hP] at h
        simp only [] at h
        by_cases hprog : prog = false
        · rw [if_pos hprog] at h
          exact Except.noConfusion h
        · rw [if_neg hprog] at h
          cases hI : iterAux g nodes b s1 with
          | error er => rw [hI] at h; exact Except.noConfusion h
          | ok t2 =>
            obtain ⟨k2, s2, ev2⟩ := t2
            rw [hI] at h
            simp only [Except.ok.injEq, Prod.mk.injEq] at h
            obtain ⟨-, -, hev⟩ := h
            rw [← hev] at he
            rcases List.mem_append.mp he with h1 | h2
            · exact runPass_ok_invokes hnd hP e h1
            · exact ih hI e h2
    · rw [if_neg hun] at h
      simp only [Except.ok.injEq, Prod.mk.injEq] at h
      obtain ⟨-, -, hev⟩ := h
      rw [← hev] at he
      exact absurd he (List.not_mem_nil e)

/-- Total projection: the final bar state of a normal driver run. -/
def runState (r : Except MoJError (ExitKind × State × List Event)) : State :=
  match r with
  | .ok (_, s, _) => s
  | .error _ => fun _ => ⟨false, 0⟩

/-- Total projection: the event log of a normal driver run. -/
def runTrace (r : Except MoJError (ExitKind × State × List Event)) : List Event :=
  match r with
  | .ok (_, _, tr) => tr
  | .error _ => []

/-- **C1** (amended): the `resolved` flag is one-way—neither solver ever
clears a computed flag—and a bar that is computed before a pass (or the
whole driver run) keeps both its flag and its load unchanged afterwards,
so a load value, once set, never changes; moreover (given the data-model
invariant that each node's incidence list has no duplicates) every
solver invocation the driver performs is on bars whose flag is false at
the moment of the call.  The original claim's further assertion that the
load of a computed bar is never *written* again is refuted separately:
the driver redundantly rewrites, with the identical value, each bar's
load right after the solver call that computed it. -/
theorem resolved_flag_one_way :
    (∀ (g : Geom) (node : Node) (t : ℕ) (s : State) (c : ℕ),
      (s c).is_computed = true →
      ((SumOfForcesInLocalX g node t s).1 c).is_computed = true) ∧
    (∀ (g : Geom) (node : Node) (ub : List ℕ) (s s' : State) (v : ℚ) (c : ℕ),
      SumOfForcesInLocalY g node ub s = .ok (s', v) →
      (s c).is_computed = true → (s' c).is_computed = true) ∧
    (∀ (g : Geom) (nodes : List Node) (s s' : State) (ev : List Event) (p : Bool)
      (c : ℕ), runPass g nodes s = .ok (s', ev, p) →
      (s c).is_computed = true → s' c = s c) ∧
    (∀ (g : Geom) (nodes : List Node) (bars : List ℕ) (s : State) (k : ExitKind)
      (s' : State) (tr : List Event) (c : ℕ),
      IterateUsingMethodOfJoints g nodes bars s = .ok (k, s', tr) →
      (s c).is_computed = true → s' c = s c) ∧
    (∀ (g : Geom) (nodes : List Node) (bars : List ℕ) (s : State) (k : ExitKind)
      (s' : State) (tr : List Event),
      (∀ n ∈ nodes, n.bars.Nodup) →
      IterateUsingMethodOfJoints g nodes bars s = .ok (k, s', tr) →
      ∀ e ∈ tr, InvokeFlagsFalse e) := by
  refine ⟨?_, ?_, ?_, ?_, ?_⟩
  · intro g node t s c hc
    exact sumX_flag_mono g node t s hc
  · intro g node ub s s' v c hY hc
    exact sumY_ok_flag_mono hY hc
  · intro g nodes s s' ev p c h hc
    exact runPass_ok_preserves h hc
  · intro g nodes bars s k s' tr c h hc
    exact iterAux_ok_preserves h hc
  · intro g nodes bars s k s' tr hnd h e he
    exact iterAux_ok_invokes hnd h e he

/-- Witness for C1: a run on the sample node whose bar `1` is already
computed with load `5`: the driver finishes and bar `1`'s state is
untouched; the single-unknown solver also keeps bar `1` marked. -/
theorem resolved_flag_one_way_witness :
    (sW 1).is_computed = true ∧
    runState (IterateUsingMethodOfJoints gTest [nodeW] [0, 1] sW) 1 = sW 1 ∧
    ((SumOfForcesInLocalX gTest nodeW 0 sW).1 1).is_computed = true :=
  ⟨rfl,
   resolved_flag_one_way.2.2.2.1 gTest [nodeW] [0, 1] sW ExitKind.converged
     (runState (IterateUsingMethodOfJoints gTest [nodeW] [0, 1] sW))
     (runTrace (IterateUsingMethodOfJoints gTest [nodeW] [0, 1] sW)) 1 rfl rfl,
   resolved_flag_one_way.1 gTest nodeW 0 sW 1 rfl⟩

/-- Counterexample to C1 as stated: on a one-node, one-bar truss the
driver's event log shows bar `0`'s axial load written a second time
(`writeLoad 0 0 true`)—and its flag re-assigned—at a moment when its
`resolved` flag is already true: lines 151–152 of `Method_of_Joints.py`
re-store the value the solver already stored at lines 61–62.  So "the
axial load, once set, is never written again" and "the driver never
writes the load of a bar whose `resolved` flag is already true" are
both false of the code (the rewritten value is identical, which is what
the amended claim proves). -/
theorem load_rewritten_counterexample :
    runTrace (IterateUsingMethodOfJoints gZero [⟨0, [0], 0, 0⟩] [0] s0)
      = [.invokeX 0 0 false, .writeLoad 0 0 false, .markComputed 0 false,
         .writeLoad 0 0 true, .markComputed 0 true] := by
  norm_num [runTrace, IterateUsingMethodOfJoints, iterAux, runPass, processNode,
    SumOfForcesInLocalX, UnknownBars, NodeIsViable, DoIhaveAnUnknownMember,
    setLoad, setComputed, gZero, s0]

/-- Writing a load and marking computed yields exactly that bar state. -/
theorem markPair_self (s : State) (b : ℕ) (v : ℚ) :
    setComputed (setLoad s b v) b b = ⟨true, v⟩ := by
  unfold setLoad setComputed
  simp

/-- Total projection: the final state of a pass. -/
def passState (r : Except MoJError (State × List Event × Bool)) : State :=
  match r with
  | .ok (s, _, _) => s
  | .error _ => fun _ => ⟨false, 0⟩

/-- Total projection: the progress flag of a pass. -/
def passProgress (r : Except MoJError (State × List Event × Bool)) : Bool :=
  match r with
  | .ok (_, _, p) => p
  | .error _ => false

/-- **C4**: a node that is viable when visited is resolved as the claim
says: with two unknown bars, the two-unknown form runs with reference
`U[0]` and target `U[1]` (its geometry error propagates; otherwise
`U[1]` is resolved with the two-unknown value first and `U[0]` then gets
the single-unknown value computed in the state where `U[1]` is already
resolved), with one unknown bar only the single-unknown form runs, and
in both cases `progress_made` becomes true while other bars are
untouched; a non-viable node changes nothing.  Viability is re-evaluated
live: on a concrete two-node truss, node `1` is non-viable at the start
of the pass yet all of its bars are resolved within that same pass. -/
theorem viable_node_resolution :
    (∀ (g : Geom) (node : Node) (s : State), node.bars.Nodup →
      NodeIsViable s node = true → (UnknownBars s node).length = 2 →
      (∀ e, SumOfForcesInLocalY g node (UnknownBars s node) s = .error e →
        processNode g node s = .error e) ∧
      (∀ s1 v1, SumOfForcesInLocalY g node (UnknownBars s node) s = .ok (s1, v1) →
        ∃ s' ev, processNode g node s = .ok (s', ev, true) ∧
          s' ((UnknownBars s node).getD 1 0) = ⟨true, v1⟩ ∧
          s' ((UnknownBars s node).getD 0 0) =
            ⟨true, (SumOfForcesInLocalX g node ((UnknownBars s node).getD 0 0)
              (setComputed (setLoad s1 ((UnknownBars s node).getD 1 0) v1)
                ((UnknownBars s node).getD 1 0))).2⟩ ∧
          ∀ c, c ≠ (UnknownBars s node).getD 0 0 →
            c ≠ (UnknownBars s node).getD 1 0 → s' c = s c)) ∧
    (∀ (g : Geom) (node : Node) (s : State),
      NodeIsViable s node = true → (UnknownBars s node).length = 1 →
      ∃ s' ev, processNode g node s = .ok (s', ev, true) ∧
        s' ((UnknownBars s node).getD 0 0) =
          ⟨true, (SumOfForcesInLocalX g node ((UnknownBars s node).getD 0 0) s).2⟩ ∧
        ∀ c, c ≠ (UnknownBars s node).getD 0 0 → s' c = s c) ∧
    (∀ (g : Geom) (node : Node) (s : State),
      NodeIsViable s node = false → processNode g node s = .ok (s, [], false)) ∧
    (NodeIsViable s0 (⟨1, [0, 1, 2], 0, 0⟩ : Node) = false ∧
      passProgress (runPass gZero [⟨0, [0], 0, 0⟩, ⟨1, [0, 1, 2], 0, 0⟩] s0) = true ∧
      (passState (runPass gZero [⟨0, [0], 0, 0⟩, ⟨1, [0, 1, 2], 0, 0⟩] s0)
        0).is_computed = true ∧
      (passState (runPass gZero [⟨0, [0], 0, 0⟩, ⟨1, [0, 1, 2], 0, 0⟩] s0)
        1).is_computed = true ∧
      (passState (runPass gZero [⟨0, [0], 0, 0⟩, ⟨1, [0, 1, 2], 0, 0⟩] s0)
        2).is_computed = true) := by
  refine ⟨?_, ?_, ?_, ?_⟩
  · intro g node s hnd hv h2
    have hlt0 : 0 < (UnknownBars s node).length := by rw [h2]; norm_num
    have hlt1 : 1 < (UnknownBars s node).length := by rw [h2]; norm_num
    have hxy : (UnknownBars s node).getD 0 0 ≠ (UnknownBars s node).getD 1 0 := by
      rw [List.getD_eq_getElem _ 0 hlt0, List.getD_eq_getElem _ 0 hlt1]
      intro he
      exact absurd ((List.Nodup.getElem_inj_iff (hnd.filter _)).mp he) (by norm_num)
    constructor
    · intro e hY
      simp only [processNode, hv, h2, if_true, eq_self_iff_true, reduceIte]
      rw [hY]
    · intro s1 v1 hY
      simp only [processNode, hv, h2, if_true, eq_self_iff_true, reduceIte]
      rw [hY]
      refine ⟨_, _, rfl, ?_, ?_, ?_⟩
      · rw [markPair_ne (Ne.symm hxy), sumX_ne _ _ _ _ (Ne.symm hxy), markPair_self]
      · rw [markPair_self]
      · intro c hc0 hc1
        rw [markPair_ne hc0, sumX_ne _ _ _ _ hc0, markPair_ne hc1,
          sumY_ok_ne hY hc1]
  · intro g node s hv h1
    simp only [processNode, hv, h1, if_true, eq_self_iff_true, reduceIte]
    refine ⟨_, _, rfl, ?_, ?_⟩
    · rw [markPair_self]
    · intro c hc
      rw [markPair_ne hc, sumX_ne _ _ _ _ hc]
  · intro g node s hv
    simp only [processNode, hv, Bool.false_eq_true, if_false]
  · refine ⟨by decide, ?_, ?_, ?_, ?_⟩ <;>
      norm_num [runPass, processNode, passProgress, passState,
        SumOfForcesInLocalX, SumOfForcesInLocalY, UnknownBars, NodeIsViable,
        setLoad, setComputed, gZero, s0]

/-- Witness for C4: a one-bar node is viable with one unknown and gets
resolved with progress; a three-bar node is non-viable and nothing
happens. -/
theorem viable_node_resolution_witness :
    NodeIsViable s0 (⟨0, [0], 0, 0⟩ : Node) = true ∧
    (UnknownBars s0 (⟨0, [0], 0, 0⟩ : Node)).length = 1 ∧
    (∃ s' ev, processNode gZero ⟨0, [0], 0, 0⟩ s0 = .ok (s', ev, true) ∧
      s' ((UnknownBars s0 (⟨0, [0], 0, 0⟩ : Node)).getD 0 0) =
        ⟨true, (SumOfForcesInLocalX gZero ⟨0, [0], 0, 0⟩
          ((UnknownBars s0 (⟨0, [0], 0, 0⟩ : Node)).getD 0 0) s0).2⟩ ∧
      ∀ c, c ≠ (UnknownBars s0 (⟨0, [0], 0, 0⟩ : Node)).getD 0 0 → s' c = s0 c) ∧
    processNode gZero ⟨9, [3, 4, 5], 0, 0⟩ s0 = .ok (s0, [], false) :=
  ⟨rfl, rfl, viable_node_resolution.2.1 gZero ⟨0, [0], 0, 0⟩ s0 rfl rfl,
   viable_node_resolution.2.2.1 gZero ⟨9, [3, 4, 5], 0, 0⟩ s0 rfl⟩

/-- A node visit that reports no progress changes nothing. -/
theorem processNode_no_progress {g : Geom} {node : Node} {s s' : State}
    {ev : List Event} (h : processNode g node s = .ok (s', ev, false)) :
    s' = s ∧ ev = [] := by
  simp only [processNode] at h
  split at h
  · split at h
    · split at h
      · exact Except.noConfusion h
      · simp only [Except.ok.injEq, Prod.mk.injEq] at h
        exact absurd h.2.2 (by simp)
    · split at h
      · simp only [Except.ok.injEq, Prod.mk.injEq] at h
        exact absurd h.2.2 (by simp)
      · simp only [Except.ok.injEq, Prod.mk.injEq] at h
        exact ⟨h.1.symm, h.2.1.symm⟩
  · simp only [Except.ok.injEq, Prod.mk.injEq] at h
    exact ⟨h.1.symm, h.2.1.symm⟩

/-- A pass that reports no progress changes nothing. -/
theorem runPass_no_progress {g : Geom} : ∀ {nodes : List Node} {s s' : State}
    {ev : List Event}, runPass g nodes s = .ok (s', ev, false) →
    s' = s ∧ ev = [] := by
  intro nodes
  induction nodes with
  | nil =>
    intro s s' ev h
    simp only [runPass, Except.ok.injEq, Prod.mk.injEq] at h
    exact ⟨h.1.symm, h.2.1.symm⟩
  | cons node rest ih =>
    intro s s' ev h
    unfold runPass at h
    cases hP : processNode g node s with
    | error er => rw [hP] at h; exact Except.noConfusion h
    | ok t1 =>
      obtain ⟨s1, ev1, p1⟩ := t1
      rw [hP] at h
      simp only [] at h
      cases hR : runPass g rest s1 with
      | error er => rw [hR] at h; exact Except.noConfusion h
      | ok t2 =>
        obtain ⟨s2, ev2, p2⟩ := t2
        rw [hR] at h
        simp only [Except.ok.injEq, Prod.mk.injEq] at h
        obtain ⟨hs2, hev, hp⟩ := h
        have hp1 : p1 = false := by
          cases p1
          · rfl
          · exact absurd hp.symm (by simp)
        have hp2 : p2 = false := by
          cases p2
          · rfl
          · rw [hp1] at hp; exact absurd hp.symm (by simp)
        rw [hp1] at hP
        rw [hp2] at hR
        obtain ⟨hs1, hev1⟩ := processNode_no_progress hP
        obtain ⟨hs2', hev2⟩ := ih hR
        subst hs1 hs2'
        rw [← hs2, ← hev, hev1, hev2]
        exact ⟨rfl, rfl⟩

/-- The two-unknown solver fails only with a geometry error naming its
node. -/
theorem sumY_error_geometry {g : Geom} {node : Node} {ub : List ℕ} {s : State}
    {e : MoJError} (h : SumOfForcesInLocalY g node ub s = .error e) :
    e = .geometry node.idx := by
  simp only [SumOfForcesInLocalY] at h
  split at h
  · exact ((Except.error.injEq _ _).mp h).symm
  · exact Except.noConfusion h

theorem processNode_error_geometry {g : Geom} {node : Node} {s : State}
    {e : MoJError} (h : processNode g node s = .error e) :
    e = .geometry node.idx := by
  simp only [processNode] at h
  split at h
  · split at h
    · split at h
      · rename_i hY
        rw [(Except.error.injEq _ _).mp h] at hY
        exact sumY_error_geometry hY
      · exact Except.noConfusion h
    · split at h
      · exact Except.noConfusion h
      · exact Except.noConfusion h
  · exact Except.noConfusion h

/-- A pass never fails with the `stuck` error (only geometry errors). -/
theorem runPass_error_ne_stuck {g : Geom} : ∀ {nodes : List Node} {s : State}
    {e : MoJError}, runPass g nodes s = .error e → e ≠ .stuck := by
  intro nodes
  induction nodes with
  | nil =>
    intro s e h
    exact Except.noConfusion h
  | cons node rest ih =>
    intro s e h
    unfold runPass at h
    cases hP : processNode g node s with
    | error er =>
      rw [hP] at h
      simp only [Except.error.injEq] at h
      rw [← h]
      rw [processNode_error_geometry hP]
      exact fun hcon => MoJError.noConfusion hcon
    | ok t1 =>
      obtain ⟨s1, ev1, p1⟩ := t1
      rw [hP] at h
      simp only [] at h
      cases hR : runPass g rest s1 with
      | error er =>
        rw [hR] at h
        simp only [Except.error.injEq] at h
        rw [← h]
        exact ih hR
      | ok t2 =>
        obtain ⟨s2, ev2, p2⟩ := t2
        rw [hR] at h
        exact Except.noConfusion h

/-- Reachability by whole progress-making passes. -/
inductive PassReaches (g : Geom) (nodes : List Node) : State → State → Prop
  | refl (s : State) : PassReaches g nodes s s
  | step {s s1 u : State} {ev : List Event}
      (h : runPass g nodes s = .ok (s1, ev, true))
      (h2 : PassReaches g nodes s1 u) : PassReaches g nodes s u

/-- **C6**: when unresolved bars remain and a full pass finds no viable
node (`progress_made` stays false), that pass resolves nothing (the
state is unchanged, no events) and the driver terminates with the fatal
`stuck` error, whatever the remaining pass budget; conversely the
`stuck` error arises only that way: whenever the driver loop returns
`stuck`, some state reachable by whole progress-making passes still had
an unknown member yet its pass made no progress (and changed nothing). -/
theorem stalled_detection :
    (∀ (g : Geom) (nodes : List Node) (s s' : State) (ev : List Event),
      DoIhaveAnUnknownMember nodes s = true →
      runPass g nodes s = .ok (s', ev, false) →
      s' = s ∧ ev = [] ∧ ∀ budget, iterAux g nodes budget s = .error .stuck) ∧
    (∀ (g : Geom) (nodes : List Node) (budget : ℕ) (s : State),
      iterAux g nodes budget s = .error .stuck →
      ∃ sp, PassReaches g nodes s sp ∧ DoIhaveAnUnknownMember nodes sp = true ∧
        runPass g nodes sp = .ok (sp, [], false)) := by
  constructor
  · intro g nodes s s' ev hun hP
    obtain ⟨hs, hev⟩ := runPass_no_progress hP
    subst hs
    subst hev
    refine ⟨rfl, rfl, fun budget => ?_⟩
    unfold iterAux
    rw [if_pos hun, hP]
    simp
  · intro g nodes budget
    induction budget with
    | zero =>
      intro s h
      unfold iterAux at h
      by_cases hun : DoIhaveAnUnknownMember nodes s = true
      · rw [if_pos hun] at h
        cases hP : runPass g nodes s with
        | error er =>
          rw [hP] at h
          simp only [Except.error.injEq] at h
          exact absurd h (runPass_error_ne_stuck hP)
        | ok t =>
          obtain ⟨s1, ev, prog⟩ := t
          rw [hP] at h
          simp only [] at h
          by_cases hprog : prog = false
          · rw [hprog] at hP
            obtain ⟨hs1, hev⟩ := runPass_no_progress hP
            rw [hs1, hev] at hP
            exact ⟨s, PassReaches.refl s, hun, hP⟩
          · rw [if_neg hprog] at h
            exact Except.noConfusion h
      · rw [if_neg hun] at h
        exact Except.noConfusion h
    | succ b ih =>
      intro s h
      unfold iterAux at h
      by_cases hun : DoIhaveAnUnknownMember nodes s = true
      · rw [if_pos hun] at h
        cases hP : runPass g nodes s with
        | error er =>
          rw [hP] at h
          simp only [Except.error.injEq] at h
          exact absurd h (runPass_error_ne_stuck hP)
        | ok t =>
          obtain ⟨s1, ev, prog⟩ := t
          rw [hP] at h
          simp only [] at h
          by_cases hprog : prog = false
          · rw [hprog] at hP
            obtain ⟨hs1, hev⟩ := runPass_no_progress hP
            rw [hs1, hev] at hP
            exact ⟨s, PassReaches.refl s, hun, hP⟩
          · rw [if_neg hprog] at h
            cases hI : iterAux g nodes b s1 with
            | error er =>
              rw [hI] at h
              simp only [Except.error.injEq] at h
              rw [h] at hI
              obtain ⟨sp, hreach, hunp, hpass⟩ := ih s1 hI
              have hptrue : prog = true := by
                cases prog
                · exact absurd rfl hprog
                · rfl
              rw [hptrue] at hP
              exact ⟨sp, PassReaches.step hP hreach, hunp, hpass⟩
            | ok t2 =>
              obtain ⟨k2, s2, ev2⟩ := t2
              rw [hI] at h
              exact Except.noConfusion h
      · rw [if_neg hun] at h
        exact Except.noConfusion h

/-- Witness for C6: a single node with three incident bars is never
viable, so the very first pass stalls and the driver exits with the
`stuck` error. -/
theorem stalled_detection_witness :
    DoIhaveAnUnknownMember [(⟨0, [0, 1, 2], 0, 0⟩ : Node)] s0 = true ∧
    runPass gZero [(⟨0, [0, 1, 2], 0, 0⟩ : Node)] s0 = .ok (s0, [], false) ∧
    IterateUsingMethodOfJoints gZero [⟨0, [0, 1, 2], 0, 0⟩] [0, 1, 2] s0
      = .error .stuck :=
  ⟨rfl, rfl,
   (stalled_detection.1 gZero [⟨0, [0, 1, 2], 0, 0⟩] s0 s0 [] rfl rfl).2.2 8⟩

/-- Helper for C7: a bounded exit of the loop came from a final pass
that made progress and began with an unknown member remaining. -/
theorem iterAux_boundedExit {g : Geom} {nodes : List Node} :
    ∀ {budget : ℕ} {s sF : State} {tr : List Event},
    iterAux g nodes budget s = .ok (.boundedExit, sF, tr) →
    ∃ sp trp, PassReaches g nodes s sp ∧
      DoIhaveAnUnknownMember nodes sp = true ∧
      runPass g nodes sp = .ok (sF, trp, true) := by
  intro budget
  induction budget with
  | zero =>
    intro s sF tr h
    unfold iterAux at h
    by_cases hun : DoIhaveAnUnknownMember nodes s = true
    · rw [if_pos hun] at h
      cases hP : runPass g nodes s with
      | error er => rw [hP] at h; exact Except.noConfusion h
      | ok t =>
        obtain ⟨s1, ev, prog⟩ := t
        rw [hP] at h
        simp only [] at h
        by_cases hprog : prog = false
        · rw [if_pos hprog] at h
          exact Except.noConfusion h
        · rw [if_neg hprog] at h
          simp only [Except.ok.injEq, Prod.mk.injEq] at h
          obtain ⟨-, hs, -⟩ := h
          have hptrue : prog = true := by
            cases prog
            · exact absurd rfl hprog
            · rfl
          rw [hptrue, hs] at hP
          exact ⟨s, ev, PassReaches.refl s, hun, hP⟩
    · rw [if_neg hun] at h
      simp only [Except.ok.injEq, Prod.mk.injEq] at h
      exact ExitKind.noConfusion h.1
  | succ b ih =>
    intro s sF tr h
    unfold iterAux at h
    by_cases hun : DoIhaveAnUnknownMember nodes s = true
    · rw [if_pos hun] at h
      cases hP : runPass g nodes s with
      | error er => rw [hP] at h; exact Except.noConfusion h
      | ok t =>
        obtain ⟨s1, ev, prog⟩ := t
        rw [hP] at h
        simp only [] at h
        by_cases hprog : prog = false
        · rw [if_pos hprog] at h
          exact Except.noConfusion h
        · rw [if_neg hprog] at h
          cases hI : iterAux g nodes b s1 with
          | error er => rw [hI] at h; exact Except.noConfusion h
          | ok t2 =>
            obtain ⟨k2, s2, ev2⟩ := t2
            rw [hI] at h
            simp only [Except.ok.injEq, Prod.mk.injEq] at h
            obtain ⟨hk, hs, -⟩ := h
            rw [hk, hs] at hI
            obtain ⟨sp, trp, hre, hunp, hpass⟩ := ih hI
            have hptrue : prog = true := by
              cases prog
              · exact absurd rfl hprog
              · rfl
            rw [hptrue] at hP
            exact ⟨sp, trp, PassReaches.step hP hre, hunp, hpass⟩
    · rw [if_neg hun] at h
      simp only [Except.ok.injEq, Prod.mk.injEq] at h
      exact ExitKind.noConfusion h.1

/-- **C7** (amended): when the pass budget is exhausted right after a
pass that made progress while unknowns remained, the driver exits
non-fatally with the bounded exit, returning the possibly partial state;
and every bounded exit arises that way: its final pass made progress and
began in a state that still had an unknown member.  (That the exit can
never leave the bar set fully resolved is refuted separately: the final
pass may have just resolved the last bars.) -/
theorem bounded_exit_characterization :
    (∀ (g : Geom) (nodes : List Node) (s s1 : State) (ev : List Event),
      DoIhaveAnUnknownMember nodes s = true →
      runPass g nodes s = .ok (s1, ev, true) →
      iterAux g nodes 0 s = .ok (.boundedExit, s1, ev)) ∧
    (∀ (g : Geom) (nodes : List Node) (bars : List ℕ) (s sF : State)
      (tr : List Event),
      IterateUsingMethodOfJoints g nodes bars s = .ok (.boundedExit, sF, tr) →
      ∃ sp trp, PassReaches g nodes s sp ∧
        DoIhaveAnUnknownMember nodes sp = true ∧
        runPass g nodes sp = .ok (sF, trp, true)) := by
  constructor
  · intro g nodes s s1 ev hun hP
    unfold iterAux
    rw [if_pos hun, hP]
    simp
  · intro g nodes bars s sF tr h
    exact iterAux_boundedExit h

/-- A seven-stage chain of nodes, listed in reverse resolution order so
that exactly one node is resolved per pass. -/
def chainNodes : List Node :=
  [⟨6, [9, 11, 12], 0, 0⟩, ⟨5, [7, 9, 10], 0, 0⟩, ⟨4, [5, 7, 8], 0, 0⟩,
   ⟨3, [3, 5, 6], 0, 0⟩, ⟨2, [1, 3, 4], 0, 0⟩, ⟨1, [0, 1, 2], 0, 0⟩,
   ⟨0, [0], 0, 0⟩]

set_option maxHeartbeats 3200000 in
set_option maxRecDepth 8000 in
/-- The chain run takes the bounded exit. -/
theorem chainRun_exit :
    exitOf (IterateUsingMethodOfJoints gZero chainNodes [12] s0)
      = some .boundedExit := by
  norm_num [exitOf, chainNodes, IterateUsingMethodOfJoints, iterAux,
    runPass, processNode, SumOfForcesInLocalX, SumOfForcesInLocalY,
    UnknownBars, NodeIsViable, DoIhaveAnUnknownMember, setLoad, setComputed,
    gZero, s0]

set_option maxHeartbeats 3200000 in
set_option maxRecDepth 8000 in
/-- The chain run ends with every one of the thirteen bars computed. -/
theorem chainRun_allComputed :
    ([0, 1, 2, 3, 4, 5, 6, 7, 8, 9, 10, 11, 12].all fun b =>
      (runState (IterateUsingMethodOfJoints gZero chainNodes [12] s0)
        b).is_computed) = true := by
  norm_num [runState, chainNodes, IterateUsingMethodOfJoints, iterAux,
    runPass, processNode, SumOfForcesInLocalX, SumOfForcesInLocalY,
    UnknownBars, NodeIsViable, DoIhaveAnUnknownMember, setLoad, setComputed,
    gZero, s0]

/-- Counterexample to C7's "the bounded exit never occurs once all bars
are resolved": on the chain truss with a one-element `bars` list the
budget is `1 + 5 = 6`, the seventh pass resolves the last bars and then
the counter check fires, so the driver takes the bounded exit even
though every bar (all thirteen incident bars, hence in particular every
bar of the `bars` argument) is resolved in the returned state. -/
theorem bounded_exit_all_resolved_counterexample :
    exitOf (IterateUsingMethodOfJoints gZero chainNodes [12] s0)
      = some .boundedExit ∧
    (([0, 1, 2, 3, 4, 5, 6, 7, 8, 9, 10, 11, 12].all fun b =>
      (runState (IterateUsingMethodOfJoints gZero chainNodes [12] s0)
        b).is_computed) = true) :=
  ⟨chainRun_exit, chainRun_allComputed⟩

/-- Witness for C7: the chain run does take the bounded exit, and the
amended theorem recovers its progress-making final pass. -/
theorem bounded_exit_characterization_witness :
    ∃ sp trp, PassReaches gZero chainNodes s0 sp ∧
      DoIhaveAnUnknownMember chainNodes sp = true ∧
      runPass gZero chainNodes sp
        = .ok (runState (IterateUsingMethodOfJoints gZero chainNodes [12] s0),
            trp, true) := by
  have hEx := chainRun_exit
  cases hR : IterateUsingMethodOfJoints gZero chainNodes [12] s0 with
  | error e =>
    rw [hR] at hEx
    simp [exitOf] at hEx
  | ok t =>
    obtain ⟨k, s', tr⟩ := t
    rw [hR] at hEx
    simp only [exitOf, Option.some.injEq] at hEx
    rw [hEx] at hR
    obtain ⟨sp, trp, hre, hunp, hpass⟩ :=
      bounded_exit_characterization.2 gZero chainNodes [12] s0 s' tr hR
    refine ⟨sp, trp, hre, hunp, ?_⟩
    rw [hpass]
    simp [runState]

end MoJ

namespace StructOps

/-!
Embedding of `ComputeReactions` (`Structure_Operations.py`, lines
36–98).  The node data model is external to the repository, so its
reaction-accumulation methods are modelled from the spec; machine floats
are again exact rationals, and Python's implicit `ZeroDivisionError` on
a degenerate support geometry is made an explicit error.
-/

/-- A node as `ComputeReactions` sees it: location, constraint string,
external force components, and accumulated reaction components.
Modelled from the spec: the node data model (external collaborator)
stores reaction forces separately from external forces, and
`GetNetXForce`/`GetNetYForce` sum the two. -/
structure SNode where
  location : ℚ × ℚ
  constraint : String
  xforce_external : ℚ
  yforce_external : ℚ
  xreaction : ℚ
  yreaction : ℚ
deriving DecidableEq

/-- Default node used for out-of-range list reads (never reached on the
paths the theorems cover). -/
def dfltS : SNode := ⟨(0, 0), "", 0, 0, 0, 0⟩

/-- Modelled from the spec: `node.AddReactionXForce(v)` accumulates `v`
into the node's x-reaction. -/
def AddReactionXForce (n : SNode) (v : ℚ) : SNode :=
  { n with xreaction := n.xreaction + v }

/-- Modelled from the spec: `node.AddReactionYForce(v)` accumulates `v`
into the node's y-reaction. -/
def AddReactionYForce (n : SNode) (v : ℚ) : SNode :=
  { n with yreaction := n.yreaction + v }

/-- `node.constraint == "pin"`. -/
def isPin (n : SNode) : Bool := n.constraint == "pin"

/-- `node.constraint` is one of the two roller kinds. -/
def isRoller (n : SNode) : Bool :=
  n.constraint == "roller_no_xdisp" || n.constraint == "roller_no_ydisp"

/-- `sys.exit` on unsupported support layouts, and Python's implicit
`ZeroDivisionError` when pin and roller share the dividing coordinate. -/
inductive ReactionError where
  | unsupported
  | divisionByZero
deriving DecidableEq

/-- Number of pin-constrained entries (`n_pins` of the scan loop). -/
def numPins (nodes : List SNode) : ℕ :=
  ((List.range nodes.length).filter (fun i => isPin (nodes.getD i dfltS))).length

/-- Number of roller-constrained entries (`n_roller`). -/
def numRollers (nodes : List SNode) : ℕ :=
  ((List.range nodes.length).filter (fun i => isRoller (nodes.getD i dfltS))).length

/-- Index of the pin node (`pin_node`; unique when `numPins = 1`). -/
def pinIdx (nodes : List SNode) : ℕ :=
  ((List.range nodes.length).filter (fun i => isPin (nodes.getD i dfltS))).getD 0 0

/-- Index of the roller node (`roller_node`; unique when `numRollers = 1`). -/
def rollerIdx (nodes : List SNode) : ℕ :=
  ((List.range nodes.length).filter (fun i => isRoller (nodes.getD i dfltS))).getD 0 0

/-- The moment accumulator of lines 60–66: external moments about the
pin (`roller_reaction` before the branch divides it). -/
def momentAboutPin (nodes : List SNode) : ℚ :=
  let pin_x := (nodes.getD (pinIdx nodes) dfltS).location.1
  let pin_y := (nodes.getD (pinIdx nodes) dfltS).location.2
  nodes.foldl (fun acc n =>
    acc + n.yforce_external * (n.location.1 - pin_x)
        + n.xforce_external * (pin_y - n.location.2)) 0

/-- `total_external_x` before any roller contribution (line 88–90). -/
def sumXext (nodes : List SNode) : ℚ :=
  nodes.foldl (fun a n => a + n.xforce_external) 0

/-- `total_external_y` before any roller contribution (line 75–77). -/
def sumYext (nodes : List SNode) : ℚ :=
  nodes.foldl (fun a n => a + n.yforce_external) 0

/-- Lines 84–85 and 97–98: the pin receives `-toty` in y and `-totx`
in x (reading the pin object live, as the Python aliasing does). -/
def finishPin (nodes1 : List SNode) (pI : ℕ) (toty totx : ℚ) : List SNode :=
  let nodes2 := nodes1.set pI (AddReactionYForce (nodes1.getD pI dfltS) (-toty))
  nodes2.set pI (AddReactionXForce (nodes2.getD pI dfltS) (-totx))

/-- `ComputeReactions(nodes)` (lines 36–98): requires exactly one pin
and one roller; cancels the external moment about the pin with the
roller reaction (whose direction depends on the roller kind), then
balances the y- and x-force totals with the pin reactions.  The sums
`sumXext`/`sumYext` range over external forces only, which the reaction
updates never touch, so reading them from the original list matches the
Python code's in-place loop. -/
def ComputeReactions (nodes : List SNode) : Except ReactionError (List SNode) :=
  if numPins nodes ≠ 1 ∨ numRollers nodes ≠ 1 then .error .unsupported
  else
    let pI := pinIdx nodes
    let rI := rollerIdx nodes
    let pinN := nodes.getD pI dfltS
    let rolN := nodes.getD rI dfltS
    let M := momentAboutPin nodes
    if rolN.constraint == "roller_no_xdisp" then
      if pinN.location.2 - rolN.location.2 = 0 then .error .divisionByZero
      else
        let R := -M / (pinN.location.2 - rolN.location.2)
        let nodes1 := nodes.set rI (AddReactionXForce rolN R)
        .ok (finishPin nodes1 pI (sumYext nodes) (sumXext nodes + R))
    else if rolN.constraint == "roller_no_ydisp" then
      if rolN.location.1 - pinN.location.1 = 0 then .error .divisionByZero
      else
        let R := -M / (rolN.location.1 - pinN.location.1)
        let nodes1 := nodes.set rI (AddReactionYForce rolN R)
        .ok (finishPin nodes1 pI (sumYext nodes + R) (sumXext nodes))
    else
      -- unreachable: the unique roller index satisfies `isRoller`;
      -- mirrors Python falling through with no roller update
      .ok (finishPin nodes pI (sumYext nodes) (sumXext nodes))

/-- The claim's observable: sum of external plus reaction x-forces. -/
def totalFx (ns : List SNode) : ℚ :=
  (ns.map (fun n => n.xforce_external + n.xreaction)).sum

/-- The claim's observable: sum of external plus reaction y-forces. -/
def totalFy (ns : List SNode) : ℚ :=
  (ns.map (fun n => n.yforce_external + n.yreaction)).sum

/-- The claim's observable: sum of moments of all external and reaction
forces about an arbitrary point `p`. -/
def totalMoment (p : ℚ × ℚ) (ns : List SNode) : ℚ :=
  (ns.map (fun n =>
    (n.location.1 - p.1) * (n.yforce_external + n.yreaction)
      - (n.location.2 - p.2) * (n.xforce_external + n.xreaction))).sum

/-- External moment about a point `q`, in the shape of the Python
accumulator. -/
def momentAt (q : ℚ × ℚ) (ns : List SNode) : ℚ :=
  (ns.map (fun n =>
    n.yforce_external * (n.location.1 - q.1)
      + n.xforce_external * (q.2 - n.location.2))).sum

theorem foldl_add_sum (f : SNode → ℚ) :
    ∀ (l : List SNode) (init : ℚ),
      l.foldl (fun a n => a + f n) init = init + (l.map f).sum := by
  intro l
  induction l with
  | nil => intro init; simp
  | cons x xs ih =>
    intro init
    simp only [List.foldl_cons, List.map_cons, List.sum_cons, ih]
    ring

theorem sum_map_set (f : SNode → ℚ) :
    ∀ (l : List SNode) (i : ℕ) (a : SNode), i < l.length →
      ((l.set i a).map f).sum = (l.map f).sum - f (l.getD i dfltS) + f a := by
  intro l
  induction l with
  | nil => intro i a h; simp at h
  | cons x xs ih =>
    intro i a h
    cases i with
    | zero =>
      simp only [List.set_cons_zero, List.map_cons, List.sum_cons,
        List.getD_cons_zero]
      ring
    | succ i =>
      simp only [List.set_cons_succ, List.map_cons, List.sum_cons,
        List.getD_cons_succ]
      rw [ih i a (by simpa using h)]
      ring

theorem getD_set_self {l : List SNode} {i : ℕ} (h : i < l.length) (a : SNode) :
    (l.set i a).getD i dfltS = a := by
  rw [List.getD_eq_getElem _ dfltS (by simpa using h)]
  simp [List.getElem_set]

theorem getD_set_ne {l : List SNode} {i j : ℕ} (hne : j ≠ i) (a : SNode) :
    (l.set i a).getD j dfltS = l.getD j dfltS := by
  by_cases hj : j < l.length
  · rw [List.getD_eq_getElem _ dfltS (by simpa using hj),
      List.getD_eq_getElem _ dfltS hj]
    simp only [List.getElem_set]
    rw [if_neg (fun he => hne he.symm)]
  · have hj' : l.length ≤ j := Nat.le_of_not_lt hj
    rw [List.getD_eq_default _ dfltS hj',
      List.getD_eq_default _ dfltS (by simpa using hj')]

theorem sumXext_eq (nodes : List SNode) :
    sumXext nodes = (nodes.map (fun n => n.xforce_external)).sum := by
  unfold sumXext
  rw [foldl_add_sum]
  ring

theorem sumYext_eq (nodes : List SNode) :
    sumYext nodes = (nodes.map (fun n => n.yforce_external)).sum := by
  unfold sumYext
  rw [foldl_add_sum]
  ring

theorem momentAboutPin_eq (nodes : List SNode) :
    momentAboutPin nodes
      = momentAt (nodes.getD (pinIdx nodes) dfltS).location nodes := by
  simp only [momentAboutPin, momentAt]
  have hstep : (fun (acc : ℚ) (n : SNode) =>
      acc + n.yforce_external
          * (n.location.1 - (nodes.getD (pinIdx nodes) dfltS).location.1)
        + n.xforce_external
          * ((nodes.getD (pinIdx nodes) dfltS).location.2 - n.location.2))
      = fun (acc : ℚ) (n : SNode) =>
        acc + (n.yforce_external
          * (n.location.1 - (nodes.getD (pinIdx nodes) dfltS).location.1)
        + n.xforce_external
          * ((nodes.getD (pinIdx nodes) dfltS).location.2 - n.location.2)) := by
    funext acc n
    ring
  rw [hstep, foldl_add_sum]
  ring

theorem pinIdx_spec {nodes : List SNode} (h : numPins nodes = 1) :
    pinIdx nodes < nodes.length ∧
    isPin (nodes.getD (pinIdx nodes) dfltS) = true := by
  unfold numPins at h
  have hmem : pinIdx nodes ∈
      (List.range nodes.length).filter (fun i => isPin (nodes.getD i dfltS)) := by
    unfold pinIdx
    exact MoJ.getD_mem (by rw [h]; norm_num)
  have h2 := List.mem_filter.mp hmem
  exact ⟨List.mem_range.mp h2.1, by simpa using h2.2⟩

theorem rollerIdx_spec {nodes : List SNode} (h : numRollers nodes = 1) :
    rollerIdx nodes < nodes.length ∧
    isRoller (nodes.getD (rollerIdx nodes) dfltS) = true := by
  unfold numRollers at h
  have hmem : rollerIdx nodes ∈
      (List.range nodes.length).filter (fun i => isRoller (nodes.getD i dfltS)) := by
    unfold rollerIdx
    exact MoJ.getD_mem (by rw [h]; norm_num)
  have h2 := List.mem_filter.mp hmem
  exact ⟨List.mem_range.mp h2.1, by simpa using h2.2⟩

theorem isPin_not_isRoller {n : SNode} (h : isPin n = true) :
    isRoller n = false := by
  simp only [isPin, beq_iff_eq] at h
  simp [isRoller, h]

theorem pin_ne_roller {nodes : List SNode} (hp : numPins nodes = 1)
    (hr : numRollers nodes = 1) : pinIdx nodes ≠ rollerIdx nodes := by
  intro he
  have h1 := (pinIdx_spec hp).2
  have h2 := (rollerIdx_spec hr).2
  rw [he] at h1
  rw [isPin_not_isRoller h1] at h2
  exact Bool.noConfusion h2

theorem finishPin_eq {nodes1 : List SNode} {pI : ℕ} (h : pI < nodes1.length)
    (toty totx : ℚ) :
    finishPin nodes1 pI toty totx
      = nodes1.set pI (AddReactionXForce
          (AddReactionYForce (nodes1.getD pI dfltS) (-toty)) (-totx)) := by
  simp only [finishPin]
  rw [getD_set_self h, List.set_set]

theorem moment_shift (p q : ℚ × ℚ) :
    ∀ l : List SNode,
      (l.map (fun n => (n.location.1 - p.1) * n.yforce_external
        - (n.location.2 - p.2) * n.xforce_external)).sum
      = momentAt q l
        + (q.1 - p.1) * (l.map (fun n => n.yforce_external)).sum
        - (q.2 - p.2) * (l.map (fun n => n.xforce_external)).sum := by
  intro l
  induction l with
  | nil => simp [momentAt]
  | cons x xs ih =>
    simp only [momentAt, List.map_cons, List.sum_cons] at ih ⊢
    rw [show ((x.location.1 - p.1) * x.yforce_external
      - (x.location.2 - p.2) * x.xforce_external
      + ((xs.map (fun n => (n.location.1 - p.1) * n.yforce_external
        - (n.location.2 - p.2) * n.xforce_external)).sum))
      = ((xs.map (fun n => (n.location.1 - p.1) * n.yforce_external
        - (n.location.2 - p.2) * n.xforce_external)).sum)
        + ((x.location.1 - p.1) * x.yforce_external
          - (x.location.2 - p.2) * x.xforce_external) from by ring, ih]
    ring

theorem AddReactionXForce_zero (n : SNode) : AddReactionXForce n 0 = n := by
  cases n
  simp [AddReactionXForce]

theorem AddReactionYForce_zero (n : SNode) : AddReactionYForce n 0 = n := by
  cases n
  simp [AddReactionYForce]

/-- Core balance computation: adding `(dx, dy)` to the roller's reaction
and then balancing the totals at the pin zeroes both force sums and
shifts the total moment about any point to the external moment about the
pin plus the roller reaction's moment about the pin. -/
theorem reactions_balance (nodes : List SNode)
    (h0 : ∀ n ∈ nodes, n.xreaction = 0 ∧ n.yreaction = 0)
    (pI rI : ℕ) (hplt : pI < nodes.length) (hrlt : rI < nodes.length)
    (hne : pI ≠ rI) (dx dy : ℚ) :
    totalFx (finishPin
        (nodes.set rI (AddReactionXForce
          (AddReactionYForce (nodes.getD rI dfltS) dy) dx)) pI
        (sumYext nodes + dy) (sumXext nodes + dx)) = 0 ∧
    totalFy (finishPin
        (nodes.set rI (AddReactionXForce
          (AddReactionYForce (nodes.getD rI dfltS) dy) dx)) pI
        (sumYext nodes + dy) (sumXext nodes + dx)) = 0 ∧
    ∀ p : ℚ × ℚ, totalMoment p (finishPin
        (nodes.set rI (AddReactionXForce
          (AddReactionYForce (nodes.getD rI dfltS) dy) dx)) pI
        (sumYext nodes + dy) (sumXext nodes + dx))
      = momentAt (nodes.getD pI dfltS).location nodes
        + ((nodes.getD rI dfltS).location.1
            - (nodes.getD pI dfltS).location.1) * dy
        + ((nodes.getD pI dfltS).location.2
            - (nodes.getD rI dfltS).location.2) * dx := by
  have hplt1 : pI < (nodes.set rI (AddReactionXForce
      (AddReactionYForce (nodes.getD rI dfltS) dy) dx)).length := by
    simpa using hplt
  have hgetpin : (nodes.set rI (AddReactionXForce
      (AddReactionYForce (nodes.getD rI dfltS) dy) dx)).getD pI dfltS
      = nodes.getD pI dfltS := getD_set_ne hne _
  have hfin : finishPin
      (nodes.set rI (AddReactionXForce
        (AddReactionYForce (nodes.getD rI dfltS) dy) dx)) pI
      (sumYext nodes + dy) (sumXext nodes + dx)
      = (nodes.set rI (AddReactionXForce
          (AddReactionYForce (nodes.getD rI dfltS) dy) dx)).set pI
        (AddReactionXForce
          (AddReactionYForce (nodes.getD pI dfltS)
            (-(sumYext nodes + dy))) (-(sumXext nodes + dx))) := by
    rw [finishPin_eq hplt1, hgetpin]
  refine ⟨?_, ?_, ?_⟩
  · rw [hfin]
    unfold totalFx
    rw [sum_map_set _ _ _ _ hplt1, hgetpin, sum_map_set _ _ _ _ hrlt]
    have hmapx : (nodes.map (fun n => n.xforce_external + n.xreaction)).sum
        = (nodes.map (fun n => n.xforce_external)).sum := by
      apply congrArg List.sum
      apply List.map_congr_left
      intro n hn
      rw [(h0 n hn).1, add_zero]
    rw [hmapx, ← sumXext_eq]
    simp only [AddReactionXForce, AddReactionYForce]
    ring
  · rw [hfin]
    unfold totalFy
    rw [sum_map_set _ _ _ _ hplt1, hgetpin, sum_map_set _ _ _ _ hrlt]
    have hmapy : (nodes.map (fun n => n.yforce_external + n.yreaction)).sum
        = (nodes.map (fun n => n.yforce_external)).sum := by
      apply congrArg List.sum
      apply List.map_congr_left
      intro n hn
      rw [(h0 n hn).2, add_zero]
    rw [hmapy, ← sumYext_eq]
    simp only [AddReactionXForce, AddReactionYForce]
    ring
  · intro p
    rw [hfin]
    unfold totalMoment
    rw [sum_map_set _ _ _ _ hplt1, hgetpin, sum_map_set _ _ _ _ hrlt]
    have hmapm : (nodes.map (fun n =>
        (n.location.1 - p.1) * (n.yforce_external + n.yreaction)
          - (n.location.2 - p.2) * (n.xforce_external + n.xreaction))).sum
        = (nodes.map (fun n =>
        (n.location.1 - p.1) * n.yforce_external
          - (n.location.2 - p.2) * n.xforce_external)).sum := by
      apply congrArg List.sum
      apply List.map_congr_left
      intro n hn
      rw [(h0 n hn).1, (h0 n hn).2, add_zero, add_zero]
    rw [hmapm, moment_shift p (nodes.getD pI dfltS).location,
      ← sumYext_eq, ← sumXext_eq]
    simp only [AddReactionXForce, AddReactionYForce]
    ring

/-- **C9**: on any node list with exactly one pin and one roller on
which `ComputeReactions` returns normally (starting from zero
accumulated reactions), the returned nodes satisfy global equilibrium:
the external-plus-reaction force sums vanish in x and in y, and the sum
of moments of all external and reaction forces about the pin—indeed
about any point—vanishes. -/
theorem ComputeReactions_equilibrium (nodes ns' : List SNode)
    (h0 : ∀ n ∈ nodes, n.xreaction = 0 ∧ n.yreaction = 0)
    (h : ComputeReactions nodes = .ok ns') :
    totalFx ns' = 0 ∧ totalFy ns' = 0 ∧
    ∀ p : ℚ × ℚ, totalMoment p ns' = 0 := by
  simp only [ComputeReactions] at h
  split at h
  · exact Except.noConfusion h
  · rename_i hguard
    push_neg at hguard
    obtain ⟨hp, hr⟩ := hguard
    obtain ⟨hplt, hpin⟩ := pinIdx_spec hp
    obtain ⟨hrlt, hrol⟩ := rollerIdx_spec hr
    have hne := pin_ne_roller hp hr
    split at h
    · -- roller_no_xdisp: the roller reaction acts in x
      rename_i hcon
      split at h
      · exact Except.noConfusion h
      · rename_i hdiv
        simp only [Except.ok.injEq] at h
        have hbal := reactions_balance nodes h0 (pinIdx nodes) (rollerIdx nodes)
          hplt hrlt hne
          (-momentAboutPin nodes
            / ((nodes.getD (pinIdx nodes) dfltS).location.2
              - (nodes.getD (rollerIdx nodes) dfltS).location.2)) 0
        rw [AddReactionYForce_zero, add_zero] at hbal
        rw [h] at hbal
        refine ⟨hbal.1, hbal.2.1, fun p => ?_⟩
        rw [hbal.2.2 p, ← momentAboutPin_eq]
        have hcancel :
            ((nodes.getD (pinIdx nodes) dfltS).location.2
              - (nodes.getD (rollerIdx nodes) dfltS).location.2)
            * (-momentAboutPin nodes
              / ((nodes.getD (pinIdx nodes) dfltS).location.2
                - (nodes.getD (rollerIdx nodes) dfltS).location.2))
            = -momentAboutPin nodes := by
          rw [mul_comm]
          exact div_mul_cancel₀ _ hdiv
        rw [mul_zero, add_zero, hcancel]
        ring
    · split at h
      · -- roller_no_ydisp: the roller reaction acts in y
        rename_i hcon1 hcon2
        split at h
        · exact Except.noConfusion h
        · rename_i hdiv
          simp only [Except.ok.injEq] at h
          have hbal := reactions_balance nodes h0 (pinIdx nodes) (rollerIdx nodes)
            hplt hrlt hne 0
            (-momentAboutPin nodes
              / ((nodes.getD (rollerIdx nodes) dfltS).location.1
                - (nodes.getD (pinIdx nodes) dfltS).location.1))
          rw [AddReactionXForce_zero, add_zero] at hbal
          rw [h] at hbal
          refine ⟨hbal.1, hbal.2.1, fun p => ?_⟩
          rw [hbal.2.2 p, ← momentAboutPin_eq]
          have hcancel :
              ((nodes.getD (rollerIdx nodes) dfltS).location.1
                - (nodes.getD (pinIdx nodes) dfltS).location.1)
              * (-momentAboutPin nodes
                / ((nodes.getD (rollerIdx nodes) dfltS).location.1
                  - (nodes.getD (pinIdx nodes) dfltS).location.1))
              = -momentAboutPin nodes := by
            rw [mul_comm]
            exact div_mul_cancel₀ _ hdiv
          rw [mul_zero, add_zero, hcancel]
          ring
      · -- impossible: the unique roller matches neither roller kind
        rename_i hcon1 hcon2
        rw [Bool.not_eq_true] at hcon1 hcon2
        rw [isRoller, hcon1, hcon2] at hrol
        exact Bool.noConfusion hrol

/-- The spec's triangle scenario: pin at `(0,0)`, vertical roller at
`(2,0)`, a unit downward load at `(1,1)`. -/
def tri : List SNode :=
  [⟨(0, 0), "pin", 0, 0, 0, 0⟩,
   ⟨(2, 0), "roller_no_ydisp", 0, 0, 0, 0⟩,
   ⟨(1, 1), "", 0, -1, 0, 0⟩]

/-- The triangle after `ComputeReactions`: both supports carry a `1/2`
upward reaction. -/
def triOut : List SNode :=
  [⟨(0, 0), "pin", 0, 0, 0, 1 / 2⟩,
   ⟨(2, 0), "roller_no_ydisp", 0, 0, 0, 1 / 2⟩,
   ⟨(1, 1), "", 0, -1, 0, 0⟩]

/-- Witness for C9: on the triangle, `ComputeReactions` yields the
half-load reactions and the equilibrium theorem applies, giving zero
force sums and zero moment about the sample point `(5, 7)`. -/
theorem ComputeReactions_equilibrium_witness :
    (∀ n ∈ tri, n.xreaction = 0 ∧ n.yreaction = 0) ∧
    ComputeReactions tri = .ok triOut ∧
    totalFx triOut = 0 ∧ totalFy triOut = 0 ∧
    totalMoment (5, 7) triOut = 0 := by
  have h1 : numPins tri = 1 := rfl
  have h2 : numRollers tri = 1 := rfl
  have hpI : pinIdx tri = 0 := rfl
  have hrI : rollerIdx tri = 1 := rfl
  have hb1 : (("roller_no_ydisp" : String) == "roller_no_xdisp") = false := rfl
  have hb2 : (("roller_no_ydisp" : String) == "roller_no_ydisp") = true := rfl
  have hgetp : tri.getD 0 dfltS = ⟨(0, 0), "pin", 0, 0, 0, 0⟩ := rfl
  have hgetr : tri.getD 1 dfltS = ⟨(2, 0), "roller_no_ydisp", 0, 0, 0, 0⟩ := rfl
  have hM : momentAboutPin tri = -1 := by
    simp only [momentAboutPin, hpI, hgetp]
    norm_num [tri]
  have hSX : sumXext tri = 0 := by norm_num [sumXext, tri]
  have hSY : sumYext tri = -1 := by norm_num [sumYext, tri]
  have hok : ComputeReactions tri = .ok triOut := by
    simp only [ComputeReactions, h1, h2, hpI, hrI, hgetp, hgetr, hM, hSX, hSY,
      hb1, hb2]
    norm_num [finishPin, AddReactionXForce, AddReactionYForce, tri, triOut,
      dfltS]
  have h := ComputeReactions_equilibrium tri triOut (by norm_num [tri]) hok
  exact ⟨by norm_num [tri], hok, h.1, h.2.1, h.2.2 (5, 7)⟩

end StructOps
